import Mathlib

/-!
# A shallow embedding of the `ghrfs` GitHub-release filesystem

This file embeds the Go sources of `carabiner-dev/ghrfs` (`ghrfs.go`,
`options.go`, the asset/release-dir entity files) into Lean 4 and proves
properties of the embedded operations.

Modelling conventions:
* Go errors are values of `FSError`; `fmt.Errorf("...: %w", e)` becomes
  `FSError.wrapped`, the bare sentinel `fs.ErrNotExist` becomes
  `FSError.errNotExist`, and a Go runtime panic (nil dereference, index out
  of range) is modelled by the distinguished constructor `FSError.panicked`
  so it can never be confused with an ordinary returned error.
* `io.ReadCloser` streams are abstract handles (`Nat`).
* All interaction with the outside world (the GitHub API client, the local
  OS file store, JSON encoding/decoding) is threaded through an explicit
  environment `Env` of oracles, one field per external operation the code
  performs.
* `time.Time` fields are modelled as `Nat` timestamps.
* The concurrent per-asset download loop of `CacheRelease` is linearised
  into a left-to-right fold over the asset indices; the error collection of the throttler (`t.Done(err)`) is modelled by the `doneErrs` list of
  `CacheResult`, and the value `CacheRelease` itself returns is the
  `result` field, exactly as the Go code computes it.
-/

namespace Ghrfs

/-- Errors, mirroring Go error values.  `panicked` models a runtime panic
(not an error return); `errNotExist` is the `fs.ErrNotExist` sentinel;
`wrapped` is `fmt.Errorf` with `%w`; `msg` is a plain `fmt.Errorf`/`errors.New`. -/
inductive FSError where
  | errNotExist : FSError
  | wrapped (context : String) (inner : FSError) : FSError
  | msg (s : String) : FSError
  | panicked (s : String) : FSError
deriving Repr, DecidableEq

/-- `errors.Is(err, fs.ErrNotExist)`: unwrap down to the sentinel. -/
def FSError.isNotExist : FSError → Bool
  | .errNotExist => true
  | .wrapped _ inner => inner.isNotExist
  | .msg _ => false
  | .panicked _ => false

/-- FileInfo captures the asset information (fields `IName`, `ISize`,
`Ctime`, `Mtime`, `IIsDir` of the Go struct). -/
structure FileInfo where
  iname : String
  isize : Int
  ctime : Nat
  mtime : Nat
  iisdir : Bool
deriving Repr, DecidableEq

/-- AssetFile abstracts an asset stored in a GitHub release: an optional
live data stream (`DataStream io.ReadCloser`, here an abstract `Nat`
handle), the download `URL`, the numeric `ID`, the embedded `FileInfo`,
and the unexported `cachePath` recorded after a successful cache write. -/
structure AssetFile where
  dataStream : Option Nat
  url : String
  id : Int
  fileInfo : FileInfo
  cachePath : String
deriving Repr, DecidableEq

/-- `AssetFile.Name()` goes through the embedded `FileInfo`. -/
def AssetFile.name (a : AssetFile) : String := a.fileInfo.iname

/-- `AssetFile.Close`: calls `af.DataStream.Close()` and nils the stream.
When `DataStream` is nil the method call on the nil interface panics. -/
def AssetFile.close (a : AssetFile) : Except FSError AssetFile :=
  match a.dataStream with
  | none => .error (.panicked "nil DataStream dereference in Close")
  | some _ => .ok { a with dataStream := none }

/-- ReleaseData captures the release information from GitHub, including the
derived `fileIndex` map (modelled as an association list where the most
recent insertion is consed on the front). -/
structure ReleaseData where
  id : Int
  url : String
  tag : String
  draft : Bool
  publishedAt : Nat
  createdAt : Nat
  assets : List AssetFile
  fileIndex : List (String × Nat)
deriving Repr, DecidableEq

/-- Options is the configuration struct for the GitHub FS.  The
`cacheMaxSize` and `cacheExtensions` fields are declared in the
options file of the repository and read by `CacheRelease` (maximum cacheable
size, 0 = unlimited; allowed extension set, empty = allow all). -/
structure Options where
  cache : Bool
  parallelDownloads : Int
  host : String
  organization : String
  repository : String
  cachePath : String
  tag : String
  cacheMaxSize : Int
  cacheExtensions : List String
deriving Repr, DecidableEq

def githubAPIURL : String := "api.github.com"

def releaseDataFile : String := ".release-data.json"

/-- Default options: canonical API host, cache disabled, parallelism 3. -/
def defaultOptions : Options :=
  { cache := false
    parallelDownloads := 3
    host := githubAPIURL
    organization := ""
    repository := ""
    cachePath := ""
    tag := ""
    cacheMaxSize := 0
    cacheExtensions := [] }

/-- ReleaseFileSystem: options plus loaded release state.  (The API client
handle is represented by the oracle environment instead.) -/
structure ReleaseFileSystem where
  options : Options
  release : ReleaseData
deriving Repr, DecidableEq

/-- ReleaseDir abstracts the release as a directory: tag, timestamps and
the snapshot of the asset entries taken by `Open(".")`. -/
structure ReleaseDir where
  tag : String
  ctime : Nat
  mtime : Nat
  assetFiles : List AssetFile
deriving Repr, DecidableEq

/-- `ReleaseDir.ReadDir(n)` returns the full child list, ignoring `n`. -/
def ReleaseDir.readDir (rd : ReleaseDir) (_n : Int) : List AssetFile :=
  rd.assetFiles

/-- The two shapes an `fs.File` returned by this package can take. -/
inductive FSFile where
  | dir (d : ReleaseDir)
  | asset (a : AssetFile)
deriving Repr, DecidableEq

/-- The indexing loop `for i, f := range assets` with running counter `n`
and Go-map accumulator `acc`: insert `f.Name() ↦ i` unless the name is
empty.  An insert is a cons, so a later insert of the same key shadows an
earlier one under `lookupIdx`, exactly like a Go map overwrite. -/
def buildIndexFrom (n : Nat) : List AssetFile → List (String × Nat) → List (String × Nat)
  | [], acc => acc
  | b :: rest, acc =>
    buildIndexFrom (n + 1) rest (if b.name = "" then acc else (b.name, n) :: acc)

/-- Go-map index built by the loader: `for i, f := range assets` inserting
`f.Name() ↦ i`, skipping empty names; later inserts shadow earlier ones. -/
def buildIndex (assets : List AssetFile) : List (String × Nat) :=
  buildIndexFrom 0 assets []

/-- Map lookup on the association list: first (= most recent) binding wins. -/
def lookupIdx : List (String × Nat) → String → Option Nat
  | [], _ => none
  | (k, v) :: rest, nm => if k = nm then some v else lookupIdx rest nm

/-- `filepath.Join` for the non-pathological paths used here (no `..` or
repeated separators, so the `Clean` normalisation step is the identity). -/
def pathJoin (a b : String) : String :=
  if a = "" then b else a ++ "/" ++ b

/-- `filepath.Ext`: the suffix beginning at the final dot in the final
path element; empty if there is none. -/
def filepathExt (s : String) : String :=
  match s.data.reverse.span (fun c => decide (c ≠ '.') && decide (c ≠ '/')) with
  | (pre, '.' :: _) => String.mk ('.' :: pre.reverse)
  | _ => ""

/-- `strings.TrimPrefix(ext, ".")`. -/
def trimDot (s : String) : String :=
  if s.startsWith "." then s.drop 1 else s

/-- The two skip conditions of the caching loop: asset over `CacheMaxSize`,
or an extension filter is set and the extension of the asset is empty or not a
member. -/
def skipCond (opts : Options) (a : AssetFile) : Bool :=
  (decide (opts.cacheMaxSize > 0) && decide (opts.cacheMaxSize < a.fileInfo.isize)) ||
  (!opts.cacheExtensions.isEmpty &&
    (decide (trimDot (filepathExt a.name) = "") ||
      !opts.cacheExtensions.contains (trimDot (filepathExt a.name))))

/-- Outcome of `os.Open` on a local path. -/
inductive OsOpenRes where
  | ok (stream : Nat)
  | notExist
  | err (e : String)
deriving Repr, DecidableEq

/-- An HTTP response as seen by this package: status code and body. -/
structure HTTPResponse where
  statusCode : Int
  body : String
deriving Repr, DecidableEq

/-- Oracle environment covering every external operation the Go code
performs: the metadata API call (`client.Call`, returning a possibly-nil
response and a possibly-nil error), JSON decoding of the body, temporary
directory creation, `os.Create`, JSON encoding of the manifest, the remote
asset GET (client construction plus call, keyed by URL), `os.Open` on a
local path, and `io.Copy` from a stream to a destination path. -/
structure Env where
  call : String → Option HTTPResponse × Option String
  decode : String → Except String ReleaseData
  newClient : Except String Unit
  mkTemp : Except String String
  createFile : String → Except String Unit
  encodeRelease : Except String Unit
  remote : String → Except String Nat
  osOpen : String → OsOpenRes
  copyFile : Nat → String → Except String Unit

/-- Result of an open-style operation: what the Go function returned, the
(possibly mutated) filesystem, and instrumentation counting how many remote
GETs and local cache `os.Open` calls were performed. -/
structure OpenResult where
  res : Except FSError FSFile
  rfs : ReleaseFileSystem
  remoteCalls : Nat
  cacheOpens : Nat
deriving Repr

/-- Replace asset number `i` (Go: writing through the `*AssetFile` pointer
stored at `Assets[i]`). -/
def setAsset (rfs : ReleaseFileSystem) (i : Nat) (a : AssetFile) : ReleaseFileSystem :=
  { rfs with release := { rfs.release with assets := rfs.release.assets.set i a } }

/-- `OpenRemoteFile`: index lookup, URL presence check, per-URL client
construction and GET, then attach the response stream to the asset. -/
def openRemoteFile (env : Env) (rfs : ReleaseFileSystem) (nm : String) : OpenResult :=
  match lookupIdx rfs.release.fileIndex nm with
  | none => ⟨.error (.wrapped ("opening " ++ nm) .errNotExist), rfs, 0, 0⟩
  | some i =>
    match rfs.release.assets[i]? with
    | none => ⟨.error (.panicked "asset index out of range"), rfs, 0, 0⟩
    | some a =>
      if a.url = "" then
        ⟨.error (.msg "no URL found in asset data"), rfs, 0, 0⟩
      else
        match env.remote a.url with
        | .error e => ⟨.error (.wrapped "requesting file from API" (.msg e)), rfs, 1, 0⟩
        | .ok s =>
          let a' := { a with dataStream := some s }
          ⟨.ok (.asset a'), setAsset rfs i a', 1, 0⟩

/-- `OpenCachedFile`: index lookup, cache-enabled and cache-path checks,
`os.Open` on the joined path; absence falls back to the remote tier, any
other local error is a hard failure. -/
def openCachedFile (env : Env) (rfs : ReleaseFileSystem) (nm : String) : OpenResult :=
  match lookupIdx rfs.release.fileIndex nm with
  | none => ⟨.error (.wrapped ("opening " ++ nm) .errNotExist), rfs, 0, 0⟩
  | some i =>
    if !rfs.options.cache then
      ⟨.error (.msg "unable to open file, release is not cached"), rfs, 0, 0⟩
    else if rfs.options.cachePath = "" then
      ⟨.error (.msg "unable to open file, release cache path not set"), rfs, 0, 0⟩
    else
      match env.osOpen (pathJoin rfs.options.cachePath nm) with
      | .notExist =>
        let r := openRemoteFile env rfs nm
        { r with cacheOpens := r.cacheOpens + 1 }
      | .err e => ⟨.error (.wrapped "opening cached file" (.msg e)), rfs, 0, 1⟩
      | .ok s =>
        match rfs.release.assets[i]? with
        | none => ⟨.error (.panicked "asset index out of range"), rfs, 0, 1⟩
        | some a =>
          let a' := { a with dataStream := some s }
          ⟨.ok (.asset a'), setAsset rfs i a', 0, 1⟩

/-- The synthetic directory value built by `Open(".")`. -/
def releaseDirOf (rfs : ReleaseFileSystem) : ReleaseDir :=
  { tag := rfs.release.tag
    ctime := rfs.release.publishedAt
    mtime := rfs.release.publishedAt
    assetFiles := rfs.release.assets }

/-- `Open`: root name returns the synthetic directory; otherwise index
lookup, stream-reuse check, then the cache tier (when caching) or the
remote tier. -/
def openFile (env : Env) (rfs : ReleaseFileSystem) (nm : String) : OpenResult :=
  if nm = "." then
    ⟨.ok (.dir (releaseDirOf rfs)), rfs, 0, 0⟩
  else
    match lookupIdx rfs.release.fileIndex nm with
    | none => ⟨.error (.wrapped ("opening " ++ nm) .errNotExist), rfs, 0, 0⟩
    | some i =>
      match rfs.release.assets[i]? with
      | none => ⟨.error (.panicked "asset index out of range"), rfs, 0, 0⟩
      | some a =>
        match a.dataStream with
        | some _ => ⟨.ok (.asset a), rfs, 0, 0⟩
        | none =>
          if rfs.options.cache then openCachedFile env rfs nm
          else openRemoteFile env rfs nm

/-- `ReadDir` on the filesystem: only the root (named `.` or `/`) is a
directory; every other name gets the bare `fs.ErrNotExist`. -/
def ReleaseFileSystem.readDir (rfs : ReleaseFileSystem) (nm : String) :
    Except FSError (List AssetFile) :=
  if nm ≠ "." ∧ nm ≠ "/" then .error .errNotExist
  else .ok rfs.release.assets

/-- One asset transfer of the caching loop (the body of the goroutine
spawned for asset `j`), linearised.  Returns the error handed to
`t.Done` (with `FSError.panicked` marking a goroutine panic, after which
`t.Done` is in fact never reached), the cache-file name created by
`os.Create` (created even when the subsequent copy fails), the number of
remote GETs performed, and the mutated filesystem. -/
def cacheAssetStep (env : Env) (rfs : ReleaseFileSystem) (j : Nat) :
    Option FSError × Option String × Nat × ReleaseFileSystem :=
  match rfs.release.assets[j]? with
  | none => (none, none, 0, rfs)
  | some a =>
    if skipCond rfs.options a then (none, none, 0, rfs)
    else
      -- obtain the source: the already-live stream, else a remote open
      let src : Except (FSError × Nat) (Option Nat × Nat × ReleaseFileSystem) :=
        match a.dataStream with
        | some s => .ok (some s, 0, rfs)
        | none =>
          let r := openRemoteFile env rfs a.name
          match r.res with
          | .error e => .error (e, r.remoteCalls)
          | .ok (.asset a') => .ok (a'.dataStream, r.remoteCalls, r.rfs)
          | .ok (.dir _) => .ok (none, r.remoteCalls, r.rfs)
      match src with
      | .error (e, rc) => (some e, none, rc, rfs)
      | .ok (stream?, rc, rfs1) =>
        match env.createFile (pathJoin rfs1.options.cachePath a.name) with
        | .error e => (some (.msg e), none, rc, rfs1)
        | .ok _ =>
          match stream? with
          | none => (some (.panicked "read on nil DataStream"), some a.name, rc, rfs1)
          | some s =>
            match env.copyFile s (pathJoin rfs1.options.cachePath a.name) with
            | .error e => (some (.msg e), some a.name, rc, rfs1)
            | .ok _ =>
              match rfs1.release.assets[j]? with
              | none => (some (.panicked "asset index out of range"), some a.name, rc, rfs1)
              | some b =>
                let b1 := { b with cachePath := pathJoin rfs1.options.cachePath a.name }
                match b.dataStream with
                | none =>
                  -- `a.DataStream.Close()` on a nil stream: goroutine panic
                  (some (.panicked "nil DataStream dereference"), some a.name, rc,
                    setAsset rfs1 j b1)
                | some _ =>
                  (none, some a.name, rc, setAsset rfs1 j { b1 with dataStream := none })

/-- Accumulated outcome of the caching loop. -/
structure LoopResult where
  errs : List FSError
  written : List String
  remoteCalls : Nat
  rfs : ReleaseFileSystem

/-- The caching loop over the asset indices, left to right. -/
def cacheLoop (env : Env) : List Nat → ReleaseFileSystem → LoopResult
  | [], rfs => ⟨[], [], 0, rfs⟩
  | j :: rest, rfs =>
    let s := cacheAssetStep env rfs j
    let L := cacheLoop env rest s.2.2.2
    ⟨s.1.toList ++ L.errs, s.2.1.toList ++ L.written, s.2.2.1 + L.remoteCalls, L.rfs⟩

/-- Outcome of `CacheRelease`: the value the function returns (`result`),
the per-transfer errors handed to `Done` on the throttler (collected by it
but never read back by this function), the names of the files created in
the cache directory, the remote GET count, and the final filesystem. -/
structure CacheResult where
  result : Except FSError Unit
  doneErrs : List FSError
  written : List String
  remoteCalls : Nat
  rfs : ReleaseFileSystem

/-- `CacheRelease`: adopt a temp dir when no cache path is set, write the
manifest, run the throttled per-asset loop, then mark the cache enabled.
The returned value ignores the per-transfer errors. -/
def cacheRelease (env : Env) (rfs : ReleaseFileSystem) : CacheResult :=
  match (if rfs.options.cachePath = "" then
      (env.mkTemp.map fun p => { rfs with options := { rfs.options with cachePath := p } })
    else .ok rfs) with
  | .error e => ⟨.error (.wrapped "creating temporary cache dir" (.msg e)), [], [], 0, rfs⟩
  | .ok rfs0 =>
    match env.createFile (pathJoin rfs0.options.cachePath releaseDataFile) with
    | .error e => ⟨.error (.wrapped "creating release data file" (.msg e)), [], [], 0, rfs0⟩
    | .ok _ =>
      match env.encodeRelease with
      | .error e =>
        ⟨.error (.wrapped "encoding release data" (.msg e)), [], [releaseDataFile], 0, rfs0⟩
      | .ok _ =>
        let L := cacheLoop env (List.range rfs0.release.assets.length) rfs0
        ⟨.ok (), L.errs, releaseDataFile :: L.written, L.remoteCalls,
          { L.rfs with options := { L.rfs.options with cache := true } }⟩

/-- The metadata request path: the tag endpoint, or the latest-release
endpoint when the tag is empty or the literal `latest`. -/
def releaseURLOf (opts : Options) : String :=
  if opts.tag = "" ∨ opts.tag = "latest" then
    "repos/" ++ opts.organization ++ "/" ++ opts.repository ++ "/releases/latest"
  else
    "repos/" ++ opts.organization ++ "/" ++ opts.repository ++ "/releases/tags/" ++ opts.tag

/-- Outcome of `LoadRelease`, with a network-call counter. -/
structure LoadResult where
  res : Except FSError ReleaseFileSystem
  networkCalls : Nat

/-- `LoadRelease`: one metadata GET, then — exactly in the order of the source —
the status-code check on the response (dereferencing it before the
transport error is examined), the transport-error check, JSON decoding,
index building, and the optional cache population. -/
def loadRelease (env : Env) (rfs : ReleaseFileSystem) : LoadResult :=
  let pr := env.call (releaseURLOf rfs.options)
  match pr.1 with
  | none => ⟨.error (.panicked "nil response dereference"), 1⟩
  | some r =>
    if r.statusCode > 399 ∨ r.statusCode < 200 then
      ⟨.error (.msg ("HTTP error " ++ toString r.statusCode ++ " when getting release data")), 1⟩
    else
      match pr.2 with
      | some e => ⟨.error (.wrapped "loading release" (.msg e)), 1⟩
      | none =>
        match env.decode r.body with
        | .error e => ⟨.error (.wrapped "unmarshaling release data" (.msg e)), 1⟩
        | .ok data =>
          let rfs2 := { rfs with release := { data with fileIndex := buildIndex data.assets } }
          if rfs2.options.cache then
            let C := cacheRelease env rfs2
            match C.result with
            | .error e => ⟨.error (.wrapped "caching release" e), 1 + C.remoteCalls⟩
            | .ok _ => ⟨.ok C.rfs, 1 + C.remoteCalls⟩
          else ⟨.ok rfs2, 1⟩

/-- The zero `ReleaseData` a fresh filesystem starts from. -/
def emptyRelease : ReleaseData :=
  { id := 0, url := "", tag := "", draft := false, publishedAt := 0, createdAt := 0
    assets := [], fileIndex := [] }

/-- Apply the option functions in order to the options struct, stopping at
the first error. -/
def applyOptFns : List (Options → Except String Options) → Options → Except String Options
  | [], o => .ok o
  | f :: fs, o =>
    match f o with
    | .error e => .error e
    | .ok o' => applyOptFns fs o'

/-- Outcome of `New`, with a network-call counter. -/
structure NewResult where
  res : Except FSError ReleaseFileSystem
  networkCalls : Nat

/-- `New`: fold the option functions over the defaults, then
`NewWithOptions` (client construction followed by `LoadRelease`). -/
def new (env : Env) (fns : List (Options → Except String Options)) : NewResult :=
  match applyOptFns fns defaultOptions with
  | .error e => ⟨.error (.msg e), 0⟩
  | .ok opts =>
    match env.newClient with
    | .error e => ⟨.error (.msg e), 0⟩
    | .ok _ =>
      let L := loadRelease env { options := opts, release := emptyRelease }
      match L.res with
      | .error e => ⟨.error (.wrapped "loading release" e), L.networkCalls⟩
      | .ok rfs => ⟨.ok rfs, L.networkCalls⟩

/-! ## URL-derived configuration (`FromURL`) -/

/-- A character of the `[A-Za-z0-9-_\.]` class of the release-path pattern. -/
def isSegChar (c : Char) : Bool :=
  c.isAlpha || c.isDigit || c == '-' || c == '_' || c == '.'

/-- A character matched by `\S` (Go regexp whitespace is `[\t\n\f\r ]`). -/
def nonSpaceChar (c : Char) : Bool :=
  !(c == ' ' || c == '\t' || c == '\n' || c == '\x0c' || c == '\r')

/-- Match the release-path pattern
`/([A-Za-z0-9-_\.]+)/([A-Za-z0-9-_\.]+)/releases/tag/(\S+)` anchored at the
head of the character list, returning the three submatches.  The greedy
character-class groups cannot backtrack (none of the class characters is a
`/`), so the maximal-run reading below coincides with that of the regexp engine. -/
def matchAt : List Char → Option (String × String × String)
  | [] => none
  | c :: rest =>
    if c = '/' then
      let org := rest.takeWhile isSegChar
      if org.isEmpty then none
      else
        match rest.dropWhile isSegChar with
        | [] => none
        | c2 :: rest2 =>
          if c2 = '/' then
            let repo := rest2.takeWhile isSegChar
            if repo.isEmpty then none
            else
              let r2 := rest2.dropWhile isSegChar
              if r2.take 14 = "/releases/tag/".data then
                let tg := (r2.drop 14).takeWhile nonSpaceChar
                if tg.isEmpty then none
                else some (String.mk org, String.mk repo, String.mk tg)
              else none
          else none
    else none

/-- `FindStringSubmatch`: try the pattern at each start position, leftmost
match wins. -/
def findRelease : List Char → Option (String × String × String)
  | [] => none
  | c :: rest =>
    match matchAt (c :: rest) with
    | some r => some r
    | none => findRelease rest

/-- The parts of a parsed URL this package consults. -/
structure GoURL where
  host : String
  path : String
deriving Repr, DecidableEq

/-- Modelled from the spec: the external `net/url` parser, restricted to
what `FromURL` consults — for an `https://` URL the host is the segment up
to the first slash and the path the remainder up to a query or fragment;
anything else is treated as a bare path.  (The stdlib parser only fails on
control characters, which never occur in the URLs quantified over here.) -/
def urlParse (s : String) : GoURL :=
  let cs := s.data
  if cs.take 8 = "https://".data then
    let rest := cs.drop 8
    let host := rest.takeWhile (fun c => !(c == '/'))
    let path := (rest.dropWhile (fun c => !(c == '/'))).takeWhile
      (fun c => !(c == '?' || c == '#'))
    ⟨String.mk host, String.mk path⟩
  else
    ⟨"", String.mk (cs.takeWhile (fun c => !(c == '?' || c == '#')))⟩

/-- `u.Hostname()`: the host with any port stripped. -/
def hostnameOf (host : String) : String :=
  String.mk (host.data.takeWhile (fun c => !(c == ':')))

/-- `FromURL`: parse the URL, find the release-path pattern in its path,
set organization/repository/tag from the submatches, and point the host at
the canonical API endpoint when the URL is on `github.com`. -/
def fromURL (urlString : String) : Options → Except String Options := fun o =>
  let u := urlParse urlString
  match findRelease u.path.data with
  | none => .error "URL does not point to a release"
  | some (org, repo, tg) =>
    let o1 := { o with organization := org, repository := repo, tag := tg }
    .ok (if hostnameOf u.host = "github.com" then { o1 with host := githubAPIURL } else o1)

/-- The asset fields the caching loop reads but never writes: the file
metadata and the download URL. -/
def assetKey (b : AssetFile) : FileInfo × String := (b.fileInfo, b.url)

/-- Invariant carried through the caching loop relative to a distinguished
asset `a` sitting at index `i`: the options and the name index never
change, every asset keeps its metadata and URL (`K` is the fixed key
list), and asset `i` itself is untouched. -/
def cacheInv (O : Options) (FI : List (String × Nat)) (K : List (FileInfo × String))
    (i : Nat) (a : AssetFile) (rfs : ReleaseFileSystem) : Prop :=
  rfs.options = O ∧ rfs.release.fileIndex = FI ∧
  (∀ k : Nat, (rfs.release.assets[k]?).map assetKey = K[k]?) ∧
  rfs.release.assets[i]? = some a

/-! ## Concrete inputs used by witnesses and counterexamples -/

/-- A benign oracle environment: every external operation succeeds, local
cache files do not exist, remote GETs yield stream handle `7`. -/
def env0 : Env :=
  { call := fun _ => (none, none)
    decode := fun _ => .error "no decode"
    newClient := .ok ()
    mkTemp := .ok "/tmp/cache"
    createFile := fun _ => .ok ()
    encodeRelease := .ok ()
    remote := fun _ => .ok 7
    osOpen := fun _ => .notExist
    copyFile := fun _ _ => .ok () }

/-- An environment whose metadata call fails at the transport level: the
client returns a nil response together with an error. -/
def envTransportErr : Env :=
  { env0 with call := fun _ => (none, some "connection refused") }

/-- An environment whose metadata call yields an HTTP 404 response. -/
def envHTTP404 : Env :=
  { env0 with call := fun _ => (some ⟨404, ""⟩, none) }

/-- A concrete asset with a live stream attached. -/
def aW : AssetFile :=
  { dataStream := some 5
    url := "https://dl.example.com/a.txt"
    id := 1
    fileInfo := { iname := "a.txt", isize := 5, ctime := 0, mtime := 0, iisdir := false }
    cachePath := "" }

/-- A filesystem holding `aW`, caching disabled. -/
def rfsW : ReleaseFileSystem :=
  { options := defaultOptions
    release := { emptyRelease with assets := [aW], fileIndex := buildIndex [aW] } }

/-- A concrete asset with no live stream and a download URL. -/
def aN : AssetFile :=
  { dataStream := none
    url := "https://dl.example.com/a.txt"
    id := 1
    fileInfo := { iname := "a.txt", isize := 5, ctime := 0, mtime := 0, iisdir := false }
    cachePath := "" }

/-- A cached filesystem holding `aN` (cache on, cache path `p`). -/
def rfsW2 : ReleaseFileSystem :=
  { options := { defaultOptions with cache := true, cachePath := "p" }
    release := { emptyRelease with assets := [aN], fileIndex := buildIndex [aN] } }

/-- A concrete asset carrying no download URL, so that its transfer fails. -/
def aNoURL : AssetFile :=
  { dataStream := none
    url := ""
    id := 1
    fileInfo := { iname := "a.bin", isize := 1, ctime := 0, mtime := 0, iisdir := false }
    cachePath := "" }

/-- A cached filesystem whose only asset has no URL: its transfer must
fail during cache population. -/
def rfsC1 : ReleaseFileSystem :=
  { options := { defaultOptions with cache := true, cachePath := "p" }
    release := { emptyRelease with assets := [aNoURL], fileIndex := buildIndex [aNoURL] } }

/-- A concrete asset larger than the configured `CacheMaxSize` below. -/
def aBig : AssetFile :=
  { dataStream := none
    url := "https://dl.example.com/big.bin"
    id := 2
    fileInfo := { iname := "big.bin", isize := 2, ctime := 0, mtime := 0, iisdir := false }
    cachePath := "" }

/-- A filesystem with cache path `p` and `CacheMaxSize` 1, holding the
oversized asset `aBig`. -/
def rfsC5 : ReleaseFileSystem :=
  { options := { defaultOptions with cachePath := "p", cacheMaxSize := 1 }
    release := { emptyRelease with assets := [aBig], fileIndex := buildIndex [aBig] } }

/-! ## Theorems -/

/-- C6: for every filesystem state (hence after every successful load) and
every environment, `Open(".")` succeeds, performs no network access and no
cache read, leaves the state unchanged, and returns a synthetic directory
whose `ReadDir` yields exactly the current asset sequence in load order,
regardless of cache state. -/
theorem open_root_synthetic_dir (env : Env) (rfs : ReleaseFileSystem) (n : Int) :
    openFile env rfs "." = ⟨.ok (.dir (releaseDirOf rfs)), rfs, 0, 0⟩ ∧
    (releaseDirOf rfs).readDir n = rfs.release.assets := by
  constructor
  · simp [openFile]
  · rfl

/-- C8 counterexample: `ReadDir` also succeeds on the name `/`, which is
different from `.`, refuting the claim that every path other than `.`
fails with the not-found condition. -/
theorem readDir_slash_succeeds :
    ReleaseFileSystem.readDir rfsW "/" = .ok [aW] ∧ "/" ≠ "." := by
  constructor
  · rfl
  · decide

/-- C8 (amended): `ReadDir` returns the full ordered asset sequence exactly
when the name is `.` or `/`; every other path fails with the bare
`fs.ErrNotExist` condition. -/
theorem readDir_root_only (rfs : ReleaseFileSystem) (nm : String) :
    rfs.readDir nm =
      if nm = "." ∨ nm = "/" then .ok rfs.release.assets else .error .errNotExist := by
  unfold ReleaseFileSystem.readDir
  by_cases h1 : nm = "."
  · simp [h1]
  · by_cases h2 : nm = "/" <;> simp [h1, h2]

/-- C7: when the indexed asset entity already carries a live stream,
`Open(name)` returns that same entity, performs no cache read and no
remote fetch, and leaves the filesystem state unchanged — so a second
`Open` right after a first successful one is a no-op on entity state. -/
theorem open_reuses_live_stream (env : Env) (rfs : ReleaseFileSystem) (nm : String)
    (i : Nat) (a : AssetFile) (s : Nat)
    (hdot : nm ≠ ".")
    (hidx : lookupIdx rfs.release.fileIndex nm = some i)
    (ha : rfs.release.assets[i]? = some a)
    (hs : a.dataStream = some s) :
    openFile env rfs nm = ⟨.ok (.asset a), rfs, 0, 0⟩ := by
  simp [openFile, hdot, hidx, ha, hs]

/-- C7 witness at a concrete filesystem whose only asset holds stream 5. -/
theorem open_reuses_live_stream_witness :
    openFile env0 rfsW "a.txt" = ⟨.ok (.asset aW), rfsW, 0, 0⟩ :=
  open_reuses_live_stream env0 rfsW "a.txt" 0 aW 5 (by decide) rfl rfl rfl

/-- C3 counterexample: closing an open asset file succeeds and clears the
stream, but a second `Close` on the resulting entity panics on the nil
stream interface instead of succeeding. -/
theorem close_second_call_panics :
    AssetFile.close aW = .ok { aW with dataStream := none } ∧
    AssetFile.close { aW with dataStream := none } =
      .error (.panicked "nil DataStream dereference in Close") := by
  constructor <;> rfl

/-- C3 (amended): `Close` on an entity with an attached stream releases it,
clears the live-stream field and returns success; on an entity whose
stream field is already nil — in particular right after a first `Close` —
the method panics instead of succeeding. -/
theorem close_clears_stream (a : AssetFile) :
    (∀ s, a.dataStream = some s → a.close = .ok { a with dataStream := none }) ∧
    (a.dataStream = none →
      a.close = .error (.panicked "nil DataStream dereference in Close")) := by
  constructor
  · intro s hs
    simp [AssetFile.close, hs]
  · intro h
    simp [AssetFile.close, h]

/-- C3 witness: the amended statement applied to the concrete open asset. -/
theorem close_clears_stream_witness :
    AssetFile.close aW = .ok { aW with dataStream := none } :=
  (close_clears_stream aW).1 5 rfl

/-- C2 (code evaluated at the failing input): when the client cannot make
the call and returns a nil response with an error, `LoadRelease` panics
dereferencing the nil response instead of returning the wrapped transport
error; the HTTP-status half of the claim does hold, as the 404 case shows. -/
theorem loadRelease_transport_error_panics :
    (loadRelease envTransportErr rfsW).res = .error (.panicked "nil response dereference") ∧
    (loadRelease envHTTP404 rfsW).res =
      .error (.msg "HTTP error 404 when getting release data") := by
  constructor <;> rfl

/-- C1 (code evaluated at the failing input): with a single asset whose
transfer fails (no download URL), the per-transfer error is recorded by
the throttler, yet `CacheRelease` returns success — the collected errors
are never surfaced in its return value. -/
theorem cacheRelease_discards_transfer_errors :
    (cacheRelease env0 rfsC1).result = .ok () ∧
    (cacheRelease env0 rfsC1).doneErrs = [.msg "no URL found in asset data"] := by
  constructor <;> rfl

/-- C4: the cache-tier open resolves the cache directory joined with the
asset name; if that local file does not exist it falls back to the
remote-tier open (same result, one extra cache probe), while any other
local I/O error makes it fail hard without attempting the remote tier. -/
theorem openCachedFile_fallback_rule (env : Env) (rfs : ReleaseFileSystem) (nm : String)
    (i : Nat)
    (hidx : lookupIdx rfs.release.fileIndex nm = some i)
    (hc : rfs.options.cache = true)
    (hp : rfs.options.cachePath ≠ "") :
    (env.osOpen (pathJoin rfs.options.cachePath nm) = .notExist →
      openCachedFile env rfs nm =
        { openRemoteFile env rfs nm with
            cacheOpens := (openRemoteFile env rfs nm).cacheOpens + 1 }) ∧
    (∀ e, env.osOpen (pathJoin rfs.options.cachePath nm) = .err e →
      openCachedFile env rfs nm =
        ⟨.error (.wrapped "opening cached file" (.msg e)), rfs, 0, 1⟩) := by
  constructor
  · intro h
    simp [openCachedFile, hidx, hc, hp, h]
  · intro e h
    simp [openCachedFile, hidx, hc, hp, h]

/-- C4 witness: on the concrete cached filesystem whose cache directory is
empty, the cache-tier open equals the remote-tier open plus one probe. -/
theorem openCachedFile_fallback_rule_witness :
    openCachedFile env0 rfsW2 "a.txt" =
      { openRemoteFile env0 rfsW2 "a.txt" with
          cacheOpens := (openRemoteFile env0 rfsW2 "a.txt").cacheOpens + 1 } :=
  (openCachedFile_fallback_rule env0 rfsW2 "a.txt" 0 rfl rfl (by decide)).1 rfl

/-- C10: on a successfully matched release URL, `FromURL` sets the three
coordinates from the submatches and rewrites the host to the canonical API
host exactly when the parsed hostname is `github.com`, leaving the
previously configured host untouched for every other hostname. -/
theorem fromURL_host_rule (url : String) (o : Options) (org repo tg : String)
    (hmatch : findRelease (urlParse url).path.data = some (org, repo, tg)) :
    fromURL url o = .ok
      { o with
        organization := org
        repository := repo
        tag := tg
        host := if hostnameOf (urlParse url).host = "github.com" then githubAPIURL
                else o.host } := by
  by_cases h : hostnameOf (urlParse url).host = "github.com" <;>
    simp [fromURL, hmatch, h]

/-- C10 witness: a release URL on a non-github host with a port keeps the
configured host, as the evaluated `if` shows. -/
theorem fromURL_host_rule_witness :
    fromURL "https://example.com:8080/a/b/releases/tag/v1" defaultOptions = .ok
      { defaultOptions with
        organization := "a"
        repository := "b"
        tag := "v1"
        host := if hostnameOf (urlParse "https://example.com:8080/a/b/releases/tag/v1").host
                    = "github.com" then githubAPIURL
                else defaultOptions.host } :=
  fromURL_host_rule "https://example.com:8080/a/b/releases/tag/v1" defaultOptions
    "a" "b" "v1" rfl

/-! ### Helper lemmas about character runs and the release-path matcher -/

/-- Taking a maximal `p`-run: the scan stops exactly at the first
non-`p` character. -/
lemma takeWhile_run (p : Char → Bool) (xs : List Char) (y : Char) (ys : List Char)
    (hxs : ∀ x ∈ xs, p x = true) (hy : p y = false) :
    (xs ++ y :: ys).takeWhile p = xs := by
  induction xs with
  | nil => simp [List.takeWhile_cons, hy]
  | cons a as ih =>
    have ha : p a = true := hxs a (List.mem_cons_self a as)
    simp only [List.cons_append, List.takeWhile_cons, ha, if_true]
    exact congrArg (a :: ·) (ih fun x hx => hxs x (List.mem_cons_of_mem a hx))

/-- Dropping a maximal `p`-run leaves the first non-`p` character and the
tail. -/
lemma dropWhile_run (p : Char → Bool) (xs : List Char) (y : Char) (ys : List Char)
    (hxs : ∀ x ∈ xs, p x = true) (hy : p y = false) :
    (xs ++ y :: ys).dropWhile p = y :: ys := by
  induction xs with
  | nil => simp [List.dropWhile_cons, hy]
  | cons a as ih =>
    have ha : p a = true := hxs a (List.mem_cons_self a as)
    simp only [List.cons_append, List.dropWhile_cons, ha, if_true]
    exact ih fun x hx => hxs x (List.mem_cons_of_mem a hx)

/-- A nonempty string has a non-empty character list. -/
lemma data_isEmpty_false {s : String} (h : s ≠ "") : s.data.isEmpty = false := by
  cases hs : s.data with
  | nil => exact absurd (String.ext (hs.trans rfl)) h
  | cons a l => rfl

/-- Characters of the release-path class are neither `?` nor `#`. -/
lemma segChar_not_query {c : Char} (h : isSegChar c = true) :
    (!(c == '?' || c == '#')) = true := by
  by_cases h1 : c = '?'
  · subst h1; exact absurd h (by decide)
  · by_cases h2 : c = '#'
    · subst h2; exact absurd h (by decide)
    · simp [h1, h2]

/-- The matcher at the head of an exact release path returns exactly the
three components. -/
lemma matchAt_exact (org repo tg : String)
    (horg : org ≠ "") (horgc : ∀ c ∈ org.data, isSegChar c = true)
    (hrepo : repo ≠ "") (hrepoc : ∀ c ∈ repo.data, isSegChar c = true)
    (htg : tg ≠ "") (htgc : ∀ c ∈ tg.data, nonSpaceChar c = true) :
    matchAt ('/' :: (org.data ++ '/' :: (repo.data ++ ("/releases/tag/".data ++ tg.data))))
      = some (org, repo, tg) := by
  have hslash : isSegChar '/' = false := rfl
  have h1 := takeWhile_run isSegChar org.data '/'
    (repo.data ++ ("/releases/tag/".data ++ tg.data)) horgc hslash
  have h2 := dropWhile_run isSegChar org.data '/'
    (repo.data ++ ("/releases/tag/".data ++ tg.data)) horgc hslash
  have h3 : (repo.data ++ ("/releases/tag/".data ++ tg.data)).takeWhile isSegChar
      = repo.data :=
    takeWhile_run isSegChar repo.data '/' ("releases/tag/".data ++ tg.data) hrepoc hslash
  have h4 : (repo.data ++ ("/releases/tag/".data ++ tg.data)).dropWhile isSegChar
      = "/releases/tag/".data ++ tg.data :=
    dropWhile_run isSegChar repo.data '/' ("releases/tag/".data ++ tg.data) hrepoc hslash
  have h5 : ("/releases/tag/".data ++ tg.data).take 14 = "/releases/tag/".data :=
    List.take_left "/releases/tag/".data tg.data
  have h6 : ("/releases/tag/".data ++ tg.data).drop 14 = tg.data :=
    List.drop_left "/releases/tag/".data tg.data
  have h7 : tg.data.takeWhile nonSpaceChar = tg.data :=
    List.takeWhile_eq_self_iff.mpr htgc
  simp only [matchAt, if_pos rfl, h1, h2, h3, h4, h5, h6, h7,
    data_isEmpty_false horg, data_isEmpty_false hrepo, data_isEmpty_false htg]
  simp

/-- When the matcher succeeds at the head, the leftmost search returns
that result. -/
lemma findRelease_cons (c : Char) (rest : List Char) (r : String × String × String)
    (h : matchAt (c :: rest) = some r) : findRelease (c :: rest) = some r := by
  simp [findRelease, h]

/-- The character data of the exact release URL, re-associated. -/
lemma releaseURL_data (hst org repo tg : String) :
    ("https://" ++ hst ++ "/" ++ org ++ "/" ++ repo ++ "/releases/tag/" ++ tg).data
      = "https://".data ++
        (hst.data ++ ('/' :: (org.data ++ ('/' ::
          (repo.data ++ ("/releases/tag/".data ++ tg.data)))))) := by
  simp only [String.data_append, List.append_assoc]
  rfl

/-- `urlParse` on an exact release URL: the host is the host component and
the path is the release path. -/
lemma urlParse_exact (hst org repo tg : String)
    (hhost : ∀ c ∈ hst.data, ¬(c = '/' ∨ c = '?' ∨ c = '#'))
    (horgc : ∀ c ∈ org.data, isSegChar c = true)
    (hrepoc : ∀ c ∈ repo.data, isSegChar c = true)
    (htgq : ∀ c ∈ tg.data, ¬(c = '?' ∨ c = '#')) :
    urlParse ("https://" ++ hst ++ "/" ++ org ++ "/" ++ repo ++ "/releases/tag/" ++ tg)
      = ⟨hst, String.mk ('/' :: (org.data ++ '/' ::
          (repo.data ++ ("/releases/tag/".data ++ tg.data))))⟩ := by
  have hslash : (!('/' == '/')) = false := rfl
  have hhost1 : ∀ c ∈ hst.data, (!(c == '/')) = true := by
    intro c hc
    have := hhost c hc
    simp only [not_or] at this
    simp [this.1]
  have h1 := takeWhile_run (fun c => !(c == '/')) hst.data '/'
    (org.data ++ '/' :: (repo.data ++ ("/releases/tag/".data ++ tg.data))) hhost1 hslash
  have h2 := dropWhile_run (fun c => !(c == '/')) hst.data '/'
    (org.data ++ '/' :: (repo.data ++ ("/releases/tag/".data ++ tg.data))) hhost1 hslash
  have hq : ∀ c ∈ ('/' :: (org.data ++ '/' ::
      (repo.data ++ ("/releases/tag/".data ++ tg.data)))), (!(c == '?' || c == '#')) = true := by
    intro c hc
    rcases List.mem_cons.mp hc with rfl | hc
    · rfl
    rcases List.mem_append.mp hc with hc | hc
    · exact segChar_not_query (horgc c hc)
    rcases List.mem_cons.mp hc with rfl | hc
    · rfl
    rcases List.mem_append.mp hc with hc | hc
    · exact segChar_not_query (hrepoc c hc)
    rcases List.mem_append.mp hc with hc | hc
    · exact (by decide : ∀ x ∈ "/releases/tag/".data, (!(x == '?' || x == '#')) = true) c hc
    · have := htgq c hc
      simp only [not_or] at this
      simp [this.1, this.2]
  have h3 : ('/' :: (org.data ++ '/' ::
      (repo.data ++ ("/releases/tag/".data ++ tg.data)))).takeWhile
        (fun c => !(c == '?' || c == '#'))
      = '/' :: (org.data ++ '/' :: (repo.data ++ ("/releases/tag/".data ++ tg.data))) :=
    List.takeWhile_eq_self_iff.mpr hq
  have htake : (("https://" ++ hst ++ "/" ++ org ++ "/" ++ repo ++
      "/releases/tag/" ++ tg).data).take 8 = "https://".data := by
    rw [releaseURL_data]
    exact List.take_left "https://".data _
  have hdrop : (("https://" ++ hst ++ "/" ++ org ++ "/" ++ repo ++
      "/releases/tag/" ++ tg).data).drop 8
      = hst.data ++ ('/' :: (org.data ++ ('/' ::
          (repo.data ++ ("/releases/tag/".data ++ tg.data))))) := by
    rw [releaseURL_data]
    exact List.drop_left "https://".data _
  simp only [urlParse, htake, if_pos rfl, hdrop, h1, h2, h3]
  rw [if_pos trivial]

/-- A successful match contains the literal `/releases/tag/` segment. -/
lemma matchAt_has_segment (cs : List Char) (r : String × String × String)
    (h : matchAt cs = some r) : "/releases/tag/".data <:+: cs := by
  match cs with
  | [] => simp [matchAt] at h
  | c :: rest =>
    by_cases hc : c = '/'
    · subst hc
      simp only [matchAt, if_pos rfl] at h
      by_cases he : (rest.takeWhile isSegChar).isEmpty = true
      · simp [he] at h
      · simp only [he, if_false] at h
        cases hd : rest.dropWhile isSegChar with
        | nil => rw [hd] at h; simp at h
        | cons c2 rest2 =>
          rw [hd] at h
          by_cases hc2 : c2 = '/'
          · subst hc2
            simp only [if_pos rfl] at h
            by_cases he2 : (rest2.takeWhile isSegChar).isEmpty = true
            · simp [he2] at h
            · simp only [he2, if_false] at h
              by_cases ht : (rest2.dropWhile isSegChar).take 14 = "/releases/tag/".data
              · have hpre : "/releases/tag/".data <+: rest2.dropWhile isSegChar :=
                  ⟨(rest2.dropWhile isSegChar).drop 14,
                    by rw [← ht]; exact List.take_append_drop 14 _⟩
                obtain ⟨t, htt⟩ := hpre
                obtain ⟨s, hss⟩ := (List.dropWhile_suffix isSegChar :
                  rest2.dropWhile isSegChar <:+ rest2)
                have hsuf2 : ('/' :: rest2) <:+ rest :=
                  hd ▸ List.dropWhile_suffix isSegChar
                obtain ⟨s2, hss2⟩ := hsuf2
                refine ⟨('/' :: s2) ++ '/' :: s, t, ?_⟩
                calc (('/' :: s2) ++ '/' :: s) ++ "/releases/tag/".data ++ t
                    = '/' :: (s2 ++ '/' :: (s ++ ("/releases/tag/".data ++ t))) := by
                      simp [List.append_assoc]
                  _ = '/' :: (s2 ++ '/' :: (s ++ rest2.dropWhile isSegChar)) := by rw [htt]
                  _ = '/' :: (s2 ++ '/' :: rest2) := by rw [hss]
                  _ = '/' :: rest := by rw [hss2]
              · simp [ht] at h
          · simp [hc2] at h
    · simp [matchAt, hc] at h

/-- The leftmost search only succeeds on lists containing the literal
`/releases/tag/` segment. -/
lemma findRelease_has_segment (cs : List Char) (r : String × String × String)
    (h : findRelease cs = some r) : "/releases/tag/".data <:+: cs := by
  induction cs with
  | nil => simp [findRelease] at h
  | cons c rest ih =>
    simp only [findRelease] at h
    cases hm : matchAt (c :: rest) with
    | some r2 => exact matchAt_has_segment _ _ hm
    | none =>
      rw [hm] at h
      obtain ⟨s, t, hst⟩ := ih h
      exact ⟨c :: s, t, by simp only [List.cons_append, List.append_assoc] at hst ⊢; rw [hst]⟩

/-- C9: URL-derived configuration.  First part: for every release URL of
the exact form `https://<host>/<org>/<repo>/releases/tag/<tag>` (with
well-formed components), `FromURL` sets organization, repository and tag
to exactly those components.  Second part: for every URL whose parsed path
lacks a `/releases/tag/` segment, `FromURL` fails with the invalid-URL
condition and `New` over that option fails before any network call. -/
theorem fromURL_release_urls :
    (∀ (hst org repo tg : String) (o : Options),
      (∀ c ∈ hst.data, ¬(c = '/' ∨ c = '?' ∨ c = '#')) →
      org ≠ "" → (∀ c ∈ org.data, isSegChar c = true) →
      repo ≠ "" → (∀ c ∈ repo.data, isSegChar c = true) →
      tg ≠ "" → (∀ c ∈ tg.data, nonSpaceChar c = true ∧ ¬(c = '?' ∨ c = '#')) →
      fromURL ("https://" ++ hst ++ "/" ++ org ++ "/" ++ repo ++ "/releases/tag/" ++ tg) o
        = .ok { o with
                organization := org
                repository := repo
                tag := tg
                host := if hostnameOf hst = "github.com" then githubAPIURL
                        else o.host }) ∧
    (∀ (url : String) (o : Options) (env : Env),
      ¬ ("/releases/tag/".data <:+: (urlParse url).path.data) →
      fromURL url o = .error "URL does not point to a release" ∧
      new env [fromURL url] = ⟨.error (.msg "URL does not point to a release"), 0⟩) := by
  constructor
  · intro hst org repo tg o hhost horg horgc hrepo hrepoc htg htgc
    have hu := urlParse_exact hst org repo tg hhost horgc hrepoc
      (fun c hc => (htgc c hc).2)
    have hm := matchAt_exact org repo tg horg horgc hrepo hrepoc htg
      (fun c hc => (htgc c hc).1)
    have hf : findRelease ('/' :: (org.data ++ '/' ::
        (repo.data ++ ("/releases/tag/".data ++ tg.data)))) = some (org, repo, tg) :=
      findRelease_cons _ _ _ hm
    have hf2 : findRelease ('/' :: (org.data ++ '/' :: (repo.data ++ '/' :: 'r' :: 'e' ::
        'l' :: 'e' :: 'a' :: 's' :: 'e' :: 's' :: '/' :: 't' :: 'a' :: 'g' :: '/' ::
        tg.data))) = some (org, repo, tg) := hf
    by_cases hh : hostnameOf hst = "github.com" <;>
      simp [fromURL, hu, hf2, hh]
  · intro url o env hno
    cases hfr : findRelease (urlParse url).path.data with
    | some r => exact absurd (findRelease_has_segment _ _ hfr) hno
    | none =>
      have h1 : fromURL url o = .error "URL does not point to a release" := by
        simp [fromURL, hfr]
      refine ⟨h1, ?_⟩
      have h2 : fromURL url defaultOptions = .error "URL does not point to a release" := by
        simp [fromURL, hfr]
      simp [new, applyOptFns, h2]

/-- C9 witness: the exact-form case at the concrete release URL
`https://github.com/acme/demo/releases/tag/v1.0.0` and the invalid case at
the concrete non-release URL `https://github.com/protobom/protobom/stargazers`. -/
theorem fromURL_release_urls_witness :
    fromURL "https://github.com/acme/demo/releases/tag/v1.0.0" defaultOptions
      = .ok { defaultOptions with
              organization := "acme"
              repository := "demo"
              tag := "v1.0.0"
              host := if hostnameOf "github.com" = "github.com" then githubAPIURL
                      else defaultOptions.host } ∧
    new env0 [fromURL "https://github.com/protobom/protobom/stargazers"]
      = ⟨.error (.msg "URL does not point to a release"), 0⟩ :=
  ⟨by
    have h := fromURL_release_urls.1 "github.com" "acme" "demo" "v1.0.0" defaultOptions
      (by decide) (by decide) (by decide) (by decide) (by decide) (by decide) (by decide)
    exact h,
   (fromURL_release_urls.2 "https://github.com/protobom/protobom/stargazers"
      defaultOptions env0 (by decide)).2⟩

/-! ### Lemmas about the name index built by the loader -/

/-- Distinct elements of a duplicate-free list sit at unique positions. -/
lemma nodup_getElem?_inj {α : Type} {l : List α} (h : l.Nodup) {i j : Nat} {x : α}
    (hi : l[i]? = some x) (hj : l[j]? = some x) : i = j :=
  List.getElem?_inj (List.getElem?_eq_some.mp hi).1 h (hi.trans hj.symm)

/-- Soundness of the index: a binding found by `lookupIdx` points at an
asset whose name is the looked-up key. -/
lemma lookupIdx_buildIndexFrom_sound (l : List AssetFile) :
    ∀ (n : Nat) (acc : List (String × Nat)) (nm : String) (k : Nat),
      lookupIdx (buildIndexFrom n l acc) nm = some k →
      (∃ (j : Nat) (b : AssetFile), l[j]? = some b ∧ b.name = nm ∧ k = n + j) ∨
        lookupIdx acc nm = some k := by
  induction l with
  | nil => intro n acc nm k h; exact Or.inr h
  | cons b rest ih =>
    intro n acc nm k h
    rw [buildIndexFrom] at h
    rcases ih (n + 1) _ nm k h with ⟨j, b', hj, hnm, hk⟩ | hacc
    · exact Or.inl ⟨j + 1, b', by simpa using hj, hnm, by omega⟩
    · by_cases hb : b.name = ""
      · rw [if_pos hb] at hacc; exact Or.inr hacc
      · rw [if_neg hb] at hacc
        rw [lookupIdx] at hacc
        by_cases hbn : b.name = nm
        · rw [if_pos hbn] at hacc
          have hk : n = k := by injection hacc
          exact Or.inl ⟨0, b, by simp, hbn, by omega⟩
        · rw [if_neg hbn] at hacc; exact Or.inr hacc

/-- When no asset of the list bears the key, the accumulated index decides
the lookup. -/
lemma lookupIdx_buildIndexFrom_skip (l : List AssetFile) :
    ∀ (n : Nat) (acc : List (String × Nat)) (nm : String),
      (∀ (j : Nat) (b : AssetFile), l[j]? = some b → b.name ≠ nm) →
      lookupIdx (buildIndexFrom n l acc) nm = lookupIdx acc nm := by
  induction l with
  | nil => intro n acc nm _; rfl
  | cons b rest ih =>
    intro n acc nm hno
    rw [buildIndexFrom]
    rw [ih (n + 1) _ nm (fun j b' hj => hno (j + 1) b' (by simpa using hj))]
    by_cases hb : b.name = ""
    · rw [if_pos hb]
    · rw [if_neg hb, lookupIdx, if_neg (hno 0 b (by simp))]

/-- Completeness of the index at a uniquely named asset: its position is
found. -/
lemma lookupIdx_buildIndexFrom_complete (l : List AssetFile) :
    ∀ (n : Nat) (acc : List (String × Nat)) (i : Nat) (a : AssetFile),
      l[i]? = some a → a.name ≠ "" →
      (∀ (j : Nat) (b : AssetFile), l[j]? = some b → b.name = a.name → j = i) →
      lookupIdx (buildIndexFrom n l acc) a.name = some (n + i) := by
  induction l with
  | nil => intro n acc i a h; simp at h
  | cons b rest ih =>
    intro n acc i a hi hne huniq
    rw [buildIndexFrom]
    cases i with
    | zero =>
      obtain rfl : b = a := by simpa using hi
      have hno : ∀ (j : Nat) (b' : AssetFile), rest[j]? = some b' → b'.name ≠ b.name := by
        intro j b' hj heq
        have := huniq (j + 1) b' (by simpa using hj) heq
        omega
      rw [lookupIdx_buildIndexFrom_skip rest (n + 1) _ b.name hno]
      rw [if_neg hne, lookupIdx, if_pos rfl]
      simp
    | succ j0 =>
      have hj0 : rest[j0]? = some a := by simpa using hi
      have huniq' : ∀ (j : Nat) (b' : AssetFile), rest[j]? = some b' → b'.name = a.name → j = j0 := by
        intro j b' hj heq
        have := huniq (j + 1) b' (by simpa using hj) heq
        omega
      rw [ih (n + 1) _ j0 a hj0 hne huniq']
      congr 1
      omega

/-- Under duplicate-free nonempty names, the loader index maps the name of
the asset at position `i` back to `i`. -/
lemma buildIndex_lookup_self (l : List AssetFile) (i : Nat) (a : AssetFile)
    (hi : l[i]? = some a) (hne : a.name ≠ "")
    (hnodup : (l.map AssetFile.name).Nodup) :
    lookupIdx (buildIndex l) a.name = some i := by
  have huniq : ∀ (j : Nat) (b : AssetFile), l[j]? = some b → b.name = a.name → j = i := by
    intro j b hj heq
    refine nodup_getElem?_inj hnodup (x := a.name) ?_ ?_
    · rw [List.getElem?_map, hj]
      simp [heq]
    · rw [List.getElem?_map, hi]
      rfl
  have h := lookupIdx_buildIndexFrom_complete l 0 [] i a hi hne huniq
  simpa [buildIndex] using h

/-! ### Invariance of the caching loop -/

/-- Replacing an asset at a position other than `i` by one with the same
key preserves the loop invariant. -/
lemma setAsset_cacheInv {O FI K i a} {rfs : ReleaseFileSystem} {k : Nat} {c c' : AssetFile}
    (hInv : cacheInv O FI K i a rfs)
    (hc : rfs.release.assets[k]? = some c)
    (hkey : assetKey c' = assetKey c)
    (hki : k ≠ i) :
    cacheInv O FI K i a (setAsset rfs k c') := by
  obtain ⟨hO, hFI, hK, hIa⟩ := hInv
  have hlt : k < rfs.release.assets.length := (List.getElem?_eq_some.mp hc).1
  refine ⟨hO, hFI, ?_, ?_⟩
  · intro k'
    by_cases hk' : k = k'
    · subst hk'
      show ((rfs.release.assets.set k c')[k]?).map assetKey = K[k]?
      rw [List.getElem?_set_self hlt, ← hK k, hc]
      simp [hkey]
    · show ((rfs.release.assets.set k c')[k']?).map assetKey = K[k']?
      rw [List.getElem?_set_ne hk']
      exact hK k'
  · show (rfs.release.assets.set k c')[i]? = some a
    rw [List.getElem?_set_ne hki]
    exact hIa

/-- The remote-tier open preserves the loop invariant when it is invoked
for a name other than that of the protected asset. -/
lemma openRemoteFile_cacheInv {env : Env} {O FI K i a} {rfs : ReleaseFileSystem} {nm : String}
    (hInv : cacheInv O FI K i a rfs)
    (hsound : ∀ (nm' : String) (k : Nat), lookupIdx FI nm' = some k →
      ∃ p : FileInfo × String, K[k]? = some p ∧ p.1.iname = nm')
    (hKi : K[i]? = some (a.fileInfo, a.url))
    (hnm : nm ≠ a.fileInfo.iname) :
    cacheInv O FI K i a (openRemoteFile env rfs nm).rfs := by
  obtain ⟨hO, hFI, hK, hIa⟩ := hInv
  unfold openRemoteFile
  rw [hFI]
  cases hl : lookupIdx FI nm with
  | none => exact ⟨hO, hFI, hK, hIa⟩
  | some k =>
    obtain ⟨p, hpk, hpn⟩ := hsound nm k hl
    have hki : k ≠ i := by
      intro h
      subst h
      rw [hKi] at hpk
      cases hpk
      exact hnm hpn.symm
    have hak := hK k
    rw [hpk] at hak
    cases hc : rfs.release.assets[k]? with
    | none => rw [hc] at hak; simp at hak
    | some c =>
      rw [hc] at hak
      simp only [Option.map_some'] at hak
      by_cases hurl : c.url = ""
      · simp only [hc, if_pos hurl]
        exact ⟨hO, hFI, hK, hIa⟩
      · simp only [hc, if_neg hurl]
        cases hr : env.remote c.url with
        | error e => exact ⟨hO, hFI, hK, hIa⟩
        | ok s =>
          exact setAsset_cacheInv ⟨hO, hFI, hK, hIa⟩ hc (by simp [assetKey]) hki

/-- One step of the caching loop preserves the invariant, and any cache
file it creates is named after an asset other than the protected one. -/
lemma cacheAssetStep_cacheInv (env : Env) {O FI K i a} {rfs : ReleaseFileSystem} (j : Nat)
    (hInv : cacheInv O FI K i a rfs)
    (hfilter : skipCond O a = true)
    (hsound : ∀ (nm' : String) (k : Nat), lookupIdx FI nm' = some k →
      ∃ p : FileInfo × String, K[k]? = some p ∧ p.1.iname = nm')
    (hKi : K[i]? = some (a.fileInfo, a.url))
    (hnames : (K.map (fun p => p.1.iname)).Nodup) :
    cacheInv O FI K i a (cacheAssetStep env rfs j).2.2.2 ∧
    (∀ nm, (cacheAssetStep env rfs j).2.1 = some nm → nm ≠ a.fileInfo.iname) := by
  obtain ⟨hO, hFI, hK, hIa⟩ := hInv
  cases hb : rfs.release.assets[j]? with
  | none =>
    have hstep : cacheAssetStep env rfs j = (none, none, 0, rfs) := by
      simp only [cacheAssetStep, hb]
    rw [hstep]
    exact ⟨⟨hO, hFI, hK, hIa⟩, fun nm h => absurd h (by simp)⟩
  | some b =>
    by_cases hj : j = i
    · subst hj
      obtain rfl : b = a := by
        rw [hIa] at hb
        injection hb with h
        exact h.symm
      have hskip : skipCond rfs.options b = true := by rw [hO]; exact hfilter
      have hstep : cacheAssetStep env rfs j = (none, none, 0, rfs) := by
        simp only [cacheAssetStep, hb, hskip, if_true]
      rw [hstep]
      exact ⟨⟨hO, hFI, hK, hIa⟩, fun nm h => absurd h (by simp)⟩
    · have hKj : K[j]? = some (assetKey b) := by rw [← hK j, hb]; rfl
      have hbname : b.fileInfo.iname ≠ a.fileInfo.iname := by
        intro heq
        apply hj
        refine nodup_getElem?_inj hnames (x := a.fileInfo.iname) ?_ ?_
        · rw [List.getElem?_map, hKj]
          simp [assetKey, heq]
        · rw [List.getElem?_map, hKi]
          rfl
      have hwr : ∀ nm : String, some b.name = some nm → nm ≠ a.fileInfo.iname := by
        intro nm h
        injection h with h
        rw [← h]
        exact hbname
      have hInv0 : cacheInv O FI K i a rfs := ⟨hO, hFI, hK, hIa⟩
      by_cases hskip : skipCond rfs.options b = true
      · have hstep : cacheAssetStep env rfs j = (none, none, 0, rfs) := by
          simp only [cacheAssetStep, hb, hskip, if_true]
        rw [hstep]
        exact ⟨hInv0, fun nm h => absurd h (by simp)⟩
      · cases hds : b.dataStream with
        | some s =>
          cases hcf : env.createFile (pathJoin rfs.options.cachePath b.name) with
          | error e =>
            have hstep : cacheAssetStep env rfs j = (some (.msg e), none, 0, rfs) := by
              simp only [cacheAssetStep, hb, hskip, Bool.false_eq_true, if_false, hds, hcf]
            rw [hstep]
            exact ⟨hInv0, fun nm h => absurd h (by simp)⟩
          | ok u =>
            cases hcp : env.copyFile s (pathJoin rfs.options.cachePath b.name) with
            | error e =>
              have hstep : cacheAssetStep env rfs j
                  = (some (.msg e), some b.name, 0, rfs) := by
                simp only [cacheAssetStep, hb, hskip, Bool.false_eq_true, if_false, hds, hcf, hcp]
              rw [hstep]
              exact ⟨hInv0, hwr⟩
            | ok u2 =>
              have hstep : cacheAssetStep env rfs j
                  = (none, some b.name, 0, setAsset rfs j
                      { b with
                        cachePath := pathJoin rfs.options.cachePath b.name
                        dataStream := none }) := by
                simp only [cacheAssetStep, hb, hskip, Bool.false_eq_true, if_false, hds, hcf, hcp]
              rw [hstep]
              exact ⟨setAsset_cacheInv hInv0 hb (by simp [assetKey]) hj, hwr⟩
        | none =>
          have hrInv : cacheInv O FI K i a (openRemoteFile env rfs b.name).rfs :=
            openRemoteFile_cacheInv hInv0 hsound hKi hbname
          cases hres : (openRemoteFile env rfs b.name).res with
          | error e =>
            have hstep : cacheAssetStep env rfs j
                = (some e, none, (openRemoteFile env rfs b.name).remoteCalls, rfs) := by
              simp only [cacheAssetStep, hb, hskip, Bool.false_eq_true, if_false, hds, hres]
            rw [hstep]
            exact ⟨hInv0, fun nm h => absurd h (by simp)⟩
          | ok f =>
            cases f with
            | dir d =>
              cases hcf : env.createFile
                  (pathJoin (openRemoteFile env rfs b.name).rfs.options.cachePath b.name) with
              | error e =>
                have hstep : cacheAssetStep env rfs j
                    = (some (.msg e), none, (openRemoteFile env rfs b.name).remoteCalls,
                        (openRemoteFile env rfs b.name).rfs) := by
                  simp only [cacheAssetStep, hb, hskip, Bool.false_eq_true, if_false, hds, hres, hcf]
                rw [hstep]
                exact ⟨hrInv, fun nm h => absurd h (by simp)⟩
              | ok u =>
                have hstep : cacheAssetStep env rfs j
                    = (some (.panicked "read on nil DataStream"), some b.name,
                        (openRemoteFile env rfs b.name).remoteCalls,
                        (openRemoteFile env rfs b.name).rfs) := by
                  simp only [cacheAssetStep, hb, hskip, Bool.false_eq_true, if_false, hds, hres, hcf]
                rw [hstep]
                exact ⟨hrInv, hwr⟩
            | asset a' =>
              cases hds' : a'.dataStream with
              | none =>
                cases hcf : env.createFile
                    (pathJoin (openRemoteFile env rfs b.name).rfs.options.cachePath b.name) with
                | error e =>
                  have hstep : cacheAssetStep env rfs j
                      = (some (.msg e), none, (openRemoteFile env rfs b.name).remoteCalls,
                          (openRemoteFile env rfs b.name).rfs) := by
                    simp only [cacheAssetStep, hb, hskip, Bool.false_eq_true, if_false, hds, hres, hds', hcf]
                  rw [hstep]
                  exact ⟨hrInv, fun nm h => absurd h (by simp)⟩
                | ok u =>
                  have hstep : cacheAssetStep env rfs j
                      = (some (.panicked "read on nil DataStream"), some b.name,
                          (openRemoteFile env rfs b.name).remoteCalls,
                          (openRemoteFile env rfs b.name).rfs) := by
                    simp only [cacheAssetStep, hb, hskip, Bool.false_eq_true, if_false, hds, hres, hds', hcf]
                  rw [hstep]
                  exact ⟨hrInv, hwr⟩
              | some s =>
                cases hcf : env.createFile
                    (pathJoin (openRemoteFile env rfs b.name).rfs.options.cachePath b.name) with
                | error e =>
                  have hstep : cacheAssetStep env rfs j
                      = (some (.msg e), none, (openRemoteFile env rfs b.name).remoteCalls,
                          (openRemoteFile env rfs b.name).rfs) := by
                    simp only [cacheAssetStep, hb, hskip, Bool.false_eq_true, if_false, hds, hres, hds', hcf]
                  rw [hstep]
                  exact ⟨hrInv, fun nm h => absurd h (by simp)⟩
                | ok u =>
                  cases hcp : env.copyFile s
                      (pathJoin (openRemoteFile env rfs b.name).rfs.options.cachePath b.name) with
                  | error e =>
                    have hstep : cacheAssetStep env rfs j
                        = (some (.msg e), some b.name,
                            (openRemoteFile env rfs b.name).remoteCalls,
                            (openRemoteFile env rfs b.name).rfs) := by
                      simp only [cacheAssetStep, hb, hskip, Bool.false_eq_true, if_false, hds, hres, hds', hcf, hcp]
                    rw [hstep]
                    exact ⟨hrInv, hwr⟩
                  | ok u2 =>
                    cases hb1 : (openRemoteFile env rfs b.name).rfs.release.assets[j]? with
                    | none =>
                      have hstep : cacheAssetStep env rfs j
                          = (some (.panicked "asset index out of range"), some b.name,
                              (openRemoteFile env rfs b.name).remoteCalls,
                              (openRemoteFile env rfs b.name).rfs) := by
                        simp only [cacheAssetStep, hb, hskip, Bool.false_eq_true, if_false, hds, hres, hds', hcf,
                          hcp, hb1]
                      rw [hstep]
                      exact ⟨hrInv, hwr⟩
                    | some b2 =>
                      cases hds2 : b2.dataStream with
                      | none =>
                        have hstep : cacheAssetStep env rfs j
                            = (some (.panicked "nil DataStream dereference"), some b.name,
                                (openRemoteFile env rfs b.name).remoteCalls,
                                setAsset (openRemoteFile env rfs b.name).rfs j
                                  { b2 with
                                    cachePath := pathJoin
                                      (openRemoteFile env rfs b.name).rfs.options.cachePath
                                      b.name }) := by
                          simp only [cacheAssetStep, hb, hskip, Bool.false_eq_true, if_false, hds, hres, hds', hcf,
                            hcp, hb1, hds2]
                        rw [hstep]
                        exact ⟨setAsset_cacheInv hrInv hb1 (by simp [assetKey]) hj, hwr⟩
                      | some s2 =>
                        have hstep : cacheAssetStep env rfs j
                            = (none, some b.name,
                                (openRemoteFile env rfs b.name).remoteCalls,
                                setAsset (openRemoteFile env rfs b.name).rfs j
                                  { b2 with
                                    cachePath := pathJoin
                                      (openRemoteFile env rfs b.name).rfs.options.cachePath
                                      b.name
                                    dataStream := none }) := by
                          simp only [cacheAssetStep, hb, hskip, Bool.false_eq_true, if_false, hds, hres, hds', hcf,
                            hcp, hb1, hds2]
                        rw [hstep]
                        exact ⟨setAsset_cacheInv hrInv hb1 (by simp [assetKey]) hj, hwr⟩

/-- The whole caching loop preserves the invariant and never creates a
cache file named after the protected (filtered) asset. -/
lemma cacheLoop_cacheInv (env : Env) {O FI K i a}
    (hfilter : skipCond O a = true)
    (hsound : ∀ (nm' : String) (k : Nat), lookupIdx FI nm' = some k →
      ∃ p : FileInfo × String, K[k]? = some p ∧ p.1.iname = nm')
    (hKi : K[i]? = some (a.fileInfo, a.url))
    (hnames : (K.map (fun p => p.1.iname)).Nodup) :
    ∀ (idxs : List Nat) (rfs : ReleaseFileSystem), cacheInv O FI K i a rfs →
      cacheInv O FI K i a (cacheLoop env idxs rfs).rfs ∧
      a.fileInfo.iname ∉ (cacheLoop env idxs rfs).written := by
  intro idxs
  induction idxs with
  | nil =>
    intro rfs hInv
    exact ⟨hInv, by simp [cacheLoop]⟩
  | cons j rest ih =>
    intro rfs hInv
    have hstep := cacheAssetStep_cacheInv env j hInv hfilter hsound hKi hnames
    have hrec := ih _ hstep.1
    refine ⟨?_, ?_⟩
    · simpa only [cacheLoop] using hrec.1
    · intro hmem
      simp only [cacheLoop, List.mem_append] at hmem
      rcases hmem with hm1 | hm2
      · cases hw : (cacheAssetStep env rfs j).2.1 with
        | none => rw [hw] at hm1; simp at hm1
        | some nm =>
          rw [hw] at hm1
          simp only [Option.toList_some, List.mem_singleton] at hm1
          exact hstep.2 nm hw hm1.symm
      · exact hrec.2 hm2

/-- C5: an asset filtered out of the cache — oversized (when
`CacheMaxSize > 0`) or with an extension outside a non-empty
`CacheExtensions` — is never written into the cache directory by
`CacheRelease` (which still returns success), and after `CacheRelease`
completes, `Open` on its name still succeeds through the remote tier
(exactly one remote GET, never the not-found path). -/
theorem cacheRelease_filter_policy (env env2 : Env) (rfs : ReleaseFileSystem)
    (i : Nat) (a : AssetFile) (s : Nat)
    (hwf : rfs.release.fileIndex = buildIndex rfs.release.assets)
    (hnodup : (rfs.release.assets.map AssetFile.name).Nodup)
    (hi : rfs.release.assets[i]? = some a)
    (hstream : a.dataStream = none)
    (hfilter : skipCond rfs.options a = true)
    (hpath : rfs.options.cachePath ≠ "")
    (hname1 : a.name ≠ "") (hname2 : a.name ≠ ".") (hname3 : a.name ≠ releaseDataFile)
    (hurl : a.url ≠ "")
    (hcr : env.createFile (pathJoin rfs.options.cachePath releaseDataFile) = .ok ())
    (henc : env.encodeRelease = .ok ())
    (hopen : env2.osOpen (pathJoin rfs.options.cachePath a.name) = .notExist)
    (hrem : env2.remote a.url = .ok s) :
    (cacheRelease env rfs).result = .ok () ∧
    a.name ∉ (cacheRelease env rfs).written ∧
    openFile env2 (cacheRelease env rfs).rfs a.name =
      ⟨.ok (.asset { a with dataStream := some s }),
        setAsset (cacheRelease env rfs).rfs i { a with dataStream := some s }, 1, 1⟩ := by
  have hCR : cacheRelease env rfs =
      ⟨.ok (),
        (cacheLoop env (List.range rfs.release.assets.length) rfs).errs,
        releaseDataFile :: (cacheLoop env (List.range rfs.release.assets.length) rfs).written,
        (cacheLoop env (List.range rfs.release.assets.length) rfs).remoteCalls,
        { (cacheLoop env (List.range rfs.release.assets.length) rfs).rfs with
          options := { (cacheLoop env (List.range rfs.release.assets.length) rfs).rfs.options
            with cache := true } }⟩ := by
    simp only [cacheRelease, if_neg hpath, hcr, henc]
  have hsound : ∀ (nm' : String) (k : Nat),
      lookupIdx rfs.release.fileIndex nm' = some k →
      ∃ p : FileInfo × String,
        (rfs.release.assets.map assetKey)[k]? = some p ∧ p.1.iname = nm' := by
    intro nm' k hlk
    rw [hwf] at hlk
    rcases lookupIdx_buildIndexFrom_sound rfs.release.assets 0 [] nm' k hlk with
      ⟨j, b, hj, hbn, hk⟩ | habs
    · have hkj : k = j := by omega
      subst hkj
      refine ⟨assetKey b, ?_, hbn⟩
      rw [List.getElem?_map, hj]
      rfl
    · simp [lookupIdx] at habs
  have hKi : (rfs.release.assets.map assetKey)[i]? = some (a.fileInfo, a.url) := by
    rw [List.getElem?_map, hi]
    rfl
  have hnames : ((rfs.release.assets.map assetKey).map (fun p => p.1.iname)).Nodup := by
    rw [List.map_map]
    exact hnodup
  have hInv0 : cacheInv rfs.options rfs.release.fileIndex
      (rfs.release.assets.map assetKey) i a rfs :=
    ⟨rfl, rfl, fun k => (List.getElem?_map assetKey rfs.release.assets k).symm, hi⟩
  obtain ⟨⟨hO', hFI', hK', hIa'⟩, hnotin⟩ :=
    cacheLoop_cacheInv env hfilter hsound hKi hnames
      (List.range rfs.release.assets.length) rfs hInv0
  refine ⟨?_, ?_, ?_⟩
  · rw [hCR]
  · rw [hCR]
    show a.name ∉ releaseDataFile ::
      (cacheLoop env (List.range rfs.release.assets.length) rfs).written
    intro hmem
    rcases List.mem_cons.mp hmem with h | h
    · exact hname3 h
    · exact hnotin h
  · rw [hCR]
    show openFile env2
        { (cacheLoop env (List.range rfs.release.assets.length) rfs).rfs with
          options := { (cacheLoop env (List.range rfs.release.assets.length) rfs).rfs.options
            with cache := true } } a.name = _
    have hlook : lookupIdx
        { (cacheLoop env (List.range rfs.release.assets.length) rfs).rfs with
          options := { (cacheLoop env (List.range rfs.release.assets.length) rfs).rfs.options
            with cache := true } }.release.fileIndex a.name = some i := by
      show lookupIdx
        (cacheLoop env (List.range rfs.release.assets.length) rfs).rfs.release.fileIndex
        a.name = some i
      rw [hFI', hwf]
      exact buildIndex_lookup_self rfs.release.assets i a hi hname1 hnodup
    have hIa2 :
        { (cacheLoop env (List.range rfs.release.assets.length) rfs).rfs with
          options := { (cacheLoop env (List.range rfs.release.assets.length) rfs).rfs.options
            with cache := true } }.release.assets[i]? = some a := hIa'
    have hcp :
        { (cacheLoop env (List.range rfs.release.assets.length) rfs).rfs with
          options := { (cacheLoop env (List.range rfs.release.assets.length) rfs).rfs.options
            with cache := true } }.options.cachePath = rfs.options.cachePath := by
      show (cacheLoop env (List.range rfs.release.assets.length) rfs).rfs.options.cachePath
        = rfs.options.cachePath
      exact congrArg Options.cachePath hO'
    have hR : openRemoteFile env2
        { (cacheLoop env (List.range rfs.release.assets.length) rfs).rfs with
          options := { (cacheLoop env (List.range rfs.release.assets.length) rfs).rfs.options
            with cache := true } } a.name =
        ⟨.ok (.asset { a with dataStream := some s }),
          setAsset
            { (cacheLoop env (List.range rfs.release.assets.length) rfs).rfs with
              options := { (cacheLoop env
                (List.range rfs.release.assets.length) rfs).rfs.options
                with cache := true } } i { a with dataStream := some s }, 1, 0⟩ := by
      simp only [openRemoteFile, hlook, hIa2, if_neg hurl, hrem]
    have hosOpen : env2.osOpen (pathJoin
        { (cacheLoop env (List.range rfs.release.assets.length) rfs).rfs with
          options := { (cacheLoop env (List.range rfs.release.assets.length) rfs).rfs.options
            with cache := true } }.options.cachePath a.name) = .notExist := by
      rw [hcp]
      exact hopen
    have hpne : ¬({ (cacheLoop env (List.range rfs.release.assets.length) rfs).rfs with
        options := { (cacheLoop env (List.range rfs.release.assets.length) rfs).rfs.options
          with cache := true } }.options.cachePath = "") := by
      rw [hcp]
      exact hpath
    have hC : openCachedFile env2
        { (cacheLoop env (List.range rfs.release.assets.length) rfs).rfs with
          options := { (cacheLoop env (List.range rfs.release.assets.length) rfs).rfs.options
            with cache := true } } a.name =
        ⟨.ok (.asset { a with dataStream := some s }),
          setAsset
            { (cacheLoop env (List.range rfs.release.assets.length) rfs).rfs with
              options := { (cacheLoop env
                (List.range rfs.release.assets.length) rfs).rfs.options
                with cache := true } } i { a with dataStream := some s }, 1, 1⟩ := by
      simp only [openCachedFile, hlook, Bool.not_true, Bool.false_eq_true, if_false,
        if_neg hpne, hosOpen, hR]
    simp only [openFile, if_neg hname2, hlook, hIa2, hstream, if_true, hC]

/-- C5 witness: on the concrete filesystem whose only asset `big.bin`
(2 bytes) exceeds `CacheMaxSize` 1, caching succeeds without writing
`big.bin`, and a subsequent `Open` serves it from the remote tier. -/
theorem cacheRelease_filter_policy_witness :
    (cacheRelease env0 rfsC5).result = .ok () ∧
    aBig.name ∉ (cacheRelease env0 rfsC5).written ∧
    openFile env0 (cacheRelease env0 rfsC5).rfs aBig.name =
      ⟨.ok (.asset { aBig with dataStream := some 7 }),
        setAsset (cacheRelease env0 rfsC5).rfs 0 { aBig with dataStream := some 7 }, 1, 1⟩ :=
  cacheRelease_filter_policy env0 env0 rfsC5 0 aBig 7 rfl (by decide) rfl rfl (by decide)
    (by decide) (by decide) (by decide) (by decide) (by decide) rfl rfl rfl rfl

end Ghrfs


